import Mathlib

/-!
Verification of the AudioBookBuilder build pipeline (abb/audiobook.py and the
legacy MediaCat/cat.py) against its specification.

The Python code is shallowly embedded: pure string manipulation is modelled
over character lists, Python floats are modelled as exact rationals, Python
exceptions as Except with the CPython message text, and the filesystem of the
build orchestrator as a list of existing paths.  External engine calls
(ffmpeg transcode, probe, concat, merge) are oracles: the probe results enter
as rational duration arguments, the encoder as a function argument, and the
three build phases as step functions.
-/

/-- A single ASCII apostrophe character, as used by the concat list format. -/
def apos : String := String.singleton (Char.ofNat 39)

/-- Python os.path.join for a POSIX directory (no trailing slash) and a relative name. -/
def pathJoin (d f : String) : String := d ++ "/" ++ f

/-- Python str.strip: drop leading and trailing whitespace. -/
def pyStrip (s : String) : String :=
  String.mk (((s.data.dropWhile Char.isWhitespace).reverse.dropWhile Char.isWhitespace).reverse)

/-- Helper for Python split(" ", 1): cut a character list at the first space. -/
def cutAtSpace : List Char → Option (List Char × List Char)
  | [] => none
  | c :: t =>
    if c = ' ' then some ([], t)
    else
      match cutAtSpace t with
      | none => none
      | some (a, b) => some (c :: a, b)

/-- Python s.split(" ", 1): at most one cut, so one or two fields, never more. -/
def pySplit1 (s : String) : List String :=
  match cutAtSpace s.data with
  | none => [s]
  | some (a, b) => [String.mk a, String.mk b]

/-- Helper for Python s.split(":"): split a character list at every colon, keeping
    empty fields. -/
def splitColonChars : List Char → List (List Char)
  | [] => [[]]
  | c :: t =>
    let r := splitColonChars t
    if c = ':' then [] :: r
    else
      match r with
      | [] => [[c]]
      | a :: rest => (c :: a) :: rest

/-- Python s.split(":"). -/
def pySplitColon (s : String) : List String := (splitColonChars s.data).map String.mk

/-- Value of a nonempty all-digit character list, otherwise none. -/
def digitsVal (cs : List Char) : Option ℕ :=
  if cs ≠ [] ∧ cs.all Char.isDigit then
    some (cs.foldl (fun a c => 10 * a + (c.toNat - 48)) 0)
  else none

/-- Python int(str): surrounding whitespace stripped, an optional sign, then decimal
    digits.  CPython also accepts underscore grouping, which no claim depends on and
    which is not modelled. -/
def pyParseInt (s : String) : Option ℤ :=
  match (pyStrip s).data with
  | '-' :: ds => (digitsVal ds).map (fun n => -(n : ℤ))
  | '+' :: ds => (digitsVal ds).map (fun n => (n : ℤ))
  | ds => (digitsVal ds).map (fun n => (n : ℤ))

/-- Python int() applied to a float value (floats are modelled as exact rationals):
    truncation toward zero. -/
def pyIntTrunc (q : ℚ) : ℤ :=
  if 0 ≤ q.num then q.num / (q.den : ℤ) else -((-q.num) / (q.den : ℤ))

/-- Formatting of a Python float holding an exact integral value, which prints with a
    trailing ".0".  Every float the embedded pipeline renders is integral (it is a
    millisecond count divided by 1000 and scaled back by 1000), so the non-integral
    fallback branch is never reached by the code paths proved below. -/
def pyFloatStr (q : ℚ) : String :=
  if q.den = 1 then toString q.num ++ ".0"
  else toString q.num ++ "/" ++ toString q.den

/-- Python format {n:02d} for a nonnegative number. -/
def fmt02 (n : ℕ) : String := if n < 10 then "0" ++ toString n else toString n

/-- Bool test that one character list is an initial segment of another. -/
def charsStart : List Char → List Char → Bool
  | [], _ => true
  | _ :: _, [] => false
  | a :: as, b :: bs => a == b && charsStart as bs

/-- Bool test for a contiguous occurrence of needle inside hay. -/
def subChars (needle : List Char) : List Char → Bool
  | [] => needle.isEmpty
  | c :: t => charsStart needle (c :: t) || subChars needle t

/-- Python substring membership: the expression (needle in hay) on str values. -/
def pyInStr (needle hay : String) : Bool := subChars needle.data hay.data

/-- ASCII lowercasing of one character, as Python str.lower does on ASCII input. -/
def pyLowerChar (c : Char) : Char :=
  if 'A' ≤ c ∧ c ≤ 'Z' then Char.ofNat (c.toNat + 32) else c

/-- Python str.lower (ASCII fragment). -/
def pyLower (s : String) : String := String.mk (s.data.map pyLowerChar)

/-- Python str.endswith. -/
def pyEndsWith (s suffix_str : String) : Bool :=
  charsStart suffix_str.data.reverse s.data.reverse

/-- A directory entry as seen by os.listdir, together with the os.path.isfile answer
    for it (the legacy matcher consults isfile; the current one does not). -/
structure DirEntry where
  name : String
  isFile : Bool
deriving Repr, DecidableEq

namespace DirectoryBuilder

/-- DirectoryBuilder._match_files (abb/audiobook.py lines 225-237): iterate the
    keywords in list order and, for each, append every directory entry whose name
    contains the keyword as a substring, joined to the directory path.  The listing
    argument stands for os.listdir(self.directory). -/
def match_files (directory : String) (listing : List String)
    (file_keywords : List String) : List String :=
  file_keywords.flatMap (fun keyword =>
    (listing.filter (fun file => pyInStr keyword file)).map
      (fun file => pathJoin directory file))

end DirectoryBuilder

namespace MediaCat

/-- AudiobookBuilder._match_files (MediaCat/cat.py lines 41-54): one pass over the
    listing in filesystem order, skipping entries that are not files, keeping each
    entry whose name contains at least one keyword. -/
def match_files (directory : String) (listing : List DirEntry)
    (file_keywords : List String) : List String :=
  (listing.filter (fun e =>
    e.isFile && file_keywords.any (fun keyword => pyInStr keyword e.name))).map
    (fun e => pathJoin directory e.name)

end MediaCat

/-- A chapter as in the data model of the spec: start and end offsets in seconds
    (exact rationals standing for the Python numbers) and a rendered title. -/
structure Chapter where
  start_seconds : ℚ
  end_seconds : ℚ
  title : String
deriving Repr, DecidableEq

/-- Millisecond truncation applied to the probed duration by SingleBuilder.chapters
    (abb/audiobook.py line 271): int(duration * 1000) / 1000. -/
def truncMs (probe : ℚ) : ℚ := (pyIntTrunc (probe * 1000) : ℚ) / 1000

namespace SingleBuilder

/-- CPython message of int() applied to a malformed literal. -/
def intLiteralErr (s : String) : String :=
  "invalid literal for int() with base 10: " ++ apos ++ s ++ apos

/-- One int(part) conversion drawn from the lazy map in h, m, s = map(int, ...). -/
def intE (s : String) : Except String ℤ :=
  match pyParseInt s with
  | some n => Except.ok n
  | none => Except.error (intLiteralErr s)

/-- The unpacking h, m, s = map(int, time_str.split(":")) (abb/audiobook.py line 286):
    map is lazy, so elements convert left to right and a bad literal raises before the
    arity check; with more than three fields CPython draws a fourth element (running
    its conversion) before reporting too many values. -/
def unpackHMS : List String → Except String (ℤ × ℤ × ℤ)
  | [] => Except.error "not enough values to unpack (expected 3, got 0)"
  | [a] => do
    let _ ← intE a
    Except.error "not enough values to unpack (expected 3, got 1)"
  | [a, b] => do
    let _ ← intE a
    let _ ← intE b
    Except.error "not enough values to unpack (expected 3, got 2)"
  | [a, b, c] => do
    let h ← intE a
    let m ← intE b
    let s ← intE c
    Except.ok (h, m, s)
  | a :: b :: c :: d :: _ => do
    let _ ← intE a
    let _ ← intE b
    let _ ← intE c
    let _ ← intE d
    Except.error "too many values to unpack (expected 3)"

/-- Parsing of one chapter-list line (abb/audiobook.py lines 280-289): strip, split on
    the first space into exactly two fields or raise the invalid-format ValueError,
    then convert HH:MM:SS to seconds and build the numbered title. -/
def parseChapterLine (idx : ℕ) (line : String) : Except String (ℤ × String) :=
  let l := pyStrip line
  match pySplit1 l with
  | [time_str, title] =>
    match unpackHMS (pySplitColon time_str) with
    | Except.error e => Except.error e
    | Except.ok (h, m, s) =>
        Except.ok (h * 3600 + m * 60 + s, fmt02 (idx + 1) ++ ". " ++ pyStrip title)
  | _ => Except.error ("Invalid chapter format: " ++ l)

/-- The parsing loop of SingleBuilder.chapters over the chapter file lines: the first
    raised error aborts the whole parse. -/
def parseChapterLines : ℕ → List String → Except String (List (ℤ × String))
  | _, [] => Except.ok []
  | idx, l :: ls =>
    match parseChapterLine idx l with
    | Except.error e => Except.error e
    | Except.ok p =>
      match parseChapterLines (idx + 1) ls with
      | Except.error e => Except.error e
      | Except.ok rest => Except.ok (p :: rest)

/-- The chapter values written by the output loop of SingleBuilder.chapters
    (abb/audiobook.py lines 291-298): chapter i runs from its parsed time to the next
    parsed time, the last one to the truncated probed duration. -/
def buildChapters : List (ℤ × String) → ℚ → List Chapter
  | [], _ => []
  | [(t, ti)], dur => [⟨(t : ℚ), dur, ti⟩]
  | (t, ti) :: (t₂, ti₂) :: rest, dur =>
    ⟨(t : ℚ), (t₂ : ℚ), ti⟩ :: buildChapters ((t₂, ti₂) :: rest) dur

/-- Value-level result of SingleBuilder.chapters: parsed chapters against the probed
    duration of the source file (the duration oracle result enters as probe). -/
def chapterList (lines : List String) (probe : ℚ) : Except String (List Chapter) :=
  match parseChapterLines 0 lines with
  | Except.error e => Except.error e
  | Except.ok tts => Except.ok (buildChapters tts (truncMs probe))

/-- The metadata block lines written for the parsed entries: START is always the
    integer seconds times 1000 (a Python int), END is the next parsed time times 1000
    (an int) except for the last block, where it is duration * 1000 — a Python float,
    rendered as such. -/
def renderBlocks : List (ℤ × String) → ℚ → List String
  | [], _ => []
  | [(t, ti)], dur =>
    ["[CHAPTER]", "TIMEBASE=1/1000",
     "START=" ++ toString (t * 1000),
     "END=" ++ pyFloatStr (dur * 1000),
     "title=" ++ ti]
  | (t, ti) :: (t₂, ti₂) :: rest, dur =>
    ["[CHAPTER]", "TIMEBASE=1/1000",
     "START=" ++ toString (t * 1000),
     "END=" ++ toString (t₂ * 1000),
     "title=" ++ ti] ++ renderBlocks ((t₂, ti₂) :: rest) dur

/-- The full chapters.txt contents written by SingleBuilder.chapters, as a line list:
    the ffmetadata header followed by one block per chapter. -/
def chapters (lines : List String) (probe : ℚ) : Except String (List String) :=
  match parseChapterLines 0 lines with
  | Except.error e => Except.error e
  | Except.ok tts => Except.ok (";FFMETADATA1" :: renderBlocks tts (truncMs probe))

end SingleBuilder

namespace DirectoryBuilder

/-- The loop of DirectoryBuilder.chapters (abb/audiobook.py lines 163-171) at the
    value level: running time accumulates the probed durations of the converted files
    (the probe oracle results enter as the durations list); the title indexes the
    keyword list, and Python raises IndexError when there are more files than
    keywords. -/
def dirChapAux (current_time : ℚ) (idx : ℕ) (file_keywords : List String) :
    List ℚ → Except String (List Chapter)
  | [] => Except.ok []
  | duration :: rest =>
    match file_keywords.get? idx with
    | none => Except.error "list index out of range"
    | some keyword =>
      match dirChapAux (current_time + duration) (idx + 1) file_keywords rest with
      | Except.error e => Except.error e
      | Except.ok tail =>
        Except.ok (⟨current_time, current_time + duration,
          fmt02 (idx + 1) ++ ". " ++ keyword⟩ :: tail)

/-- Value-level chapter sequence of the directory builder for the given probed
    durations (one per converted file, in chapter order) and keyword list. -/
def chapterList (durations : List ℚ) (file_keywords : List String) :
    Except String (List Chapter) :=
  dirChapAux 0 0 file_keywords durations

/-- The metadata block lines written by DirectoryBuilder.chapters: every START and END
    goes through int(value * 1000). -/
def dirRenderAux (current_time : ℚ) (idx : ℕ) (file_keywords : List String) :
    List ℚ → Except String (List String)
  | [] => Except.ok []
  | duration :: rest =>
    match file_keywords.get? idx with
    | none => Except.error "list index out of range"
    | some keyword =>
      match dirRenderAux (current_time + duration) (idx + 1) file_keywords rest with
      | Except.error e => Except.error e
      | Except.ok tail =>
        Except.ok (["[CHAPTER]", "TIMEBASE=1/1000",
          "START=" ++ toString (pyIntTrunc (current_time * 1000)),
          "END=" ++ toString (pyIntTrunc ((current_time + duration) * 1000)),
          "title=" ++ fmt02 (idx + 1) ++ ". " ++ keyword] ++ tail)

/-- The full chapters.txt contents written by DirectoryBuilder.chapters
    (abb/audiobook.py lines 158-172), as a line list. -/
def chapters (durations : List ℚ) (file_keywords : List String) :
    Except String (List String) :=
  match dirRenderAux 0 0 file_keywords durations with
  | Except.error e => Except.error e
  | Except.ok ls => Except.ok (";FFMETADATA1" :: ls)

end DirectoryBuilder

inductive ConvertAction where
  | copyFile
  | encodeFile
deriving Repr, DecidableEq

namespace AudioBookBuilder

/-- The branch taken by AudioBookBuilder._convert_to_m4a (abb/audiobook.py lines
    47-62): a byte copy when re-encoding is off and the lowercased input name ends in
    .m4a, otherwise an invocation of the external encoder. -/
def convertAction (re_encode : Bool) (input_file : String) : ConvertAction :=
  if !re_encode && pyEndsWith (pyLower input_file) ".m4a" then ConvertAction.copyFile
  else ConvertAction.encodeFile

/-- Bytes of the output file written by _convert_to_m4a, with the file contents as a
    byte string and the external encoder as an oracle function. -/
def convertOutput (re_encode : Bool) (input_file : String) (data : List ℕ)
    (encoder : List ℕ → List ℕ) : List ℕ :=
  match convertAction re_encode input_file with
  | ConvertAction.copyFile => data
  | ConvertAction.encodeFile => encoder data

/-- Return value of _convert_to_m4a: the Python function performs its filesystem
    effect and falls off the end without a return statement, so every call returns
    None (modelled as Option.none; a present string would be some). -/
def convert_to_m4a_return (input_file output_file : String) : Option String :=
  none

end AudioBookBuilder

/-- Python str() of a value that is either None or a string, as interpolated by an
    f-string. -/
def pyStr : Option String → String
  | none => "None"
  | some s => s

namespace DirectoryBuilder

/-- Name of converted track idx inside the scratch workspace (abb/audiobook.py line
    216): os.path.join(self.temp_dir, f"{idx:02d}.m4a"). -/
def converted_name (temp_dir : String) (idx : ℕ) : String :=
  pathJoin temp_dir (fmt02 idx ++ ".m4a")

/-- DirectoryBuilder.converted_files (abb/audiobook.py lines 201-223): the loop
    computes output_file but appends converted_file, the return value of
    _convert_to_m4a, to the list it memoizes and returns. -/
def converted_files (temp_dir : String) (matched_files : List String) :
    List (Option String) :=
  matched_files.enum.map (fun p =>
    AudioBookBuilder.convert_to_m4a_return p.2 (converted_name temp_dir p.1))

/-- The inputs.txt lines written by DirectoryBuilder.raw_audio (abb/audiobook.py
    lines 176-179): one interpolated file line per entry of converted_files. -/
def inputs_lines (converted : List (Option String)) : List String :=
  converted.map (fun file => "file " ++ apos ++ pyStr file ++ apos)

end DirectoryBuilder

/-- shutil.rmtree on the filesystem model: removes the directory and everything at or
    below it.  A path is under a directory when it is the directory itself or extends
    it past a path separator. -/
def underDir (d p : String) : Bool := p == d || charsStart (d ++ "/").data p.data

/-- Remove a directory tree from the set of existing paths. -/
def rmtreeFs (d : String) (fs : List String) : List String :=
  fs.filter (fun p => !underDir d p)

namespace AudioBookBuilder

/-- DirectoryBuilder.cleanup and SingleBuilder.cleanup (abb/audiobook.py lines
    193-199 and 309-315): remove the scratch directory if it still exists, otherwise
    only log a warning. -/
def cleanupFs (temp_dir : String) (fs : List String) : List String :=
  if fs.contains temp_dir then rmtreeFs temp_dir fs else fs

/-- The try body of AudioBookBuilder.build: the chapters, raw-audio and merge phases
    run in order, each an oracle that transforms the filesystem and either succeeds
    or raises; the first raise aborts the body. -/
def buildBody (st1 st2 st3 : List String → Except Unit Unit × List String)
    (fs : List String) : Except Unit Unit × List String :=
  match st1 fs with
  | (Except.error e, f1) => (Except.error e, f1)
  | (Except.ok _, f1) =>
    match st2 f1 with
    | (Except.error e, f2) => (Except.error e, f2)
    | (Except.ok _, f2) => st3 f2

/-- AudioBookBuilder.build (abb/audiobook.py lines 85-112): the body inside
    try/finally; the finally block runs cleanup exactly when the cleanup flag is set
    and does nothing otherwise.  The third component collects lines reported to the
    caller: build prints nothing on either branch. -/
def build (temp_dir : String) (cleanup : Bool)
    (st1 st2 st3 : List String → Except Unit Unit × List String)
    (fs : List String) : Except Unit Unit × List String × List String :=
  let r := buildBody st1 st2 st3 fs
  (r.1, if cleanup then cleanupFs temp_dir r.2 else r.2, [])

end AudioBookBuilder

/-- A trivial build phase that succeeds without touching the filesystem (used only to
    exercise the build model at concrete inputs). -/
def okStep : List String → Except Unit Unit × List String := fun fs => (Except.ok (), fs)

/-- Success of parsing one chapter line.  Whether a line parses, and with which error
    it fails, does not depend on the enumeration index, which only enters the title
    numbering; this is stated at index 0 and transported by parseChapterLine_cases. -/
def parseOK (line : String) : Bool :=
  match SingleBuilder.parseChapterLine 0 line with
  | Except.ok _ => true
  | Except.error _ => false

/-! Support lemmas. -/

lemma pyIntTrunc_intCast (m : ℤ) : pyIntTrunc ((m : ℚ)) = m := by
  unfold pyIntTrunc
  rw [Rat.num_intCast, Rat.den_intCast]
  push_cast
  rcases le_or_lt 0 m with h | h
  · rw [if_pos h]; omega
  · rw [if_neg (by omega)]; omega

lemma truncMs_intCast (m : ℤ) : truncMs ((m : ℚ)) = (m : ℚ) := by
  unfold truncMs
  have h : ((m : ℚ) * 1000) = (((m * 1000 : ℤ) : ℚ)) := by push_cast; ring
  rw [h, pyIntTrunc_intCast]
  push_cast
  field_simp

lemma pyFloatStr_intCast (m : ℤ) : pyFloatStr ((m : ℚ)) = toString m ++ ".0" := by
  unfold pyFloatStr
  rw [Rat.num_intCast, Rat.den_intCast]
  simp

lemma truncMs_200 : truncMs 200 = 200 := by
  have h := truncMs_intCast 200
  norm_num at h
  exact h

lemma truncMs_bounds (probe : ℚ) (h : 0 ≤ probe) :
    truncMs probe ≤ probe ∧ probe - 1 / 1000 < truncMs probe := by
  have hnum : 0 ≤ (probe * 1000).num := Rat.num_nonneg.mpr (by positivity)
  have heq : pyIntTrunc (probe * 1000) = ⌊probe * 1000⌋ := by
    unfold pyIntTrunc
    rw [if_pos hnum, Rat.floor_def]
  unfold truncMs
  rw [heq]
  constructor
  · rw [div_le_iff (by norm_num : (0 : ℚ) < 1000)]
    exact Int.floor_le _
  · rw [sub_lt_iff_lt_add, div_add_div_same, lt_div_iff (by norm_num : (0 : ℚ) < 1000)]
    have hlt := Int.lt_floor_add_one (probe * 1000)
    linarith

lemma buildChapters_head (p : ℤ × String) (r : List (ℤ × String)) (dur : ℚ) :
    ∃ c cs, SingleBuilder.buildChapters (p :: r) dur = c :: cs ∧
      c.start_seconds = (p.1 : ℚ) := by
  obtain ⟨t1, s1⟩ := p
  cases r with
  | nil => exact ⟨_, _, rfl, rfl⟩
  | cons q t =>
    obtain ⟨t2, s2⟩ := q
    exact ⟨_, _, rfl, rfl⟩

lemma buildChapters_contig (dur : ℚ) :
    ∀ tts : List (ℤ × String),
    List.Chain' (fun a b => a.end_seconds = b.start_seconds)
      (SingleBuilder.buildChapters tts dur) := by
  intro tts
  induction tts with
  | nil => simp [SingleBuilder.buildChapters]
  | cons p r ih =>
    obtain ⟨t1, s1⟩ := p
    cases r with
    | nil => simp [SingleBuilder.buildChapters]
    | cons q t =>
      obtain ⟨t2, s2⟩ := q
      rw [SingleBuilder.buildChapters]
      obtain ⟨c, cs, hc, hstart⟩ := buildChapters_head (t2, s2) t dur
      rw [hc]
      refine List.chain'_cons.mpr ⟨?_, ?_⟩
      · rw [hstart]
      · rw [← hc]
        exact ih

lemma buildChapters_last (dur : ℚ) :
    ∀ (r : List (ℤ × String)) (p : ℤ × String) (c : Chapter),
    (SingleBuilder.buildChapters (p :: r) dur).getLast? = some c →
    c.end_seconds = dur := by
  intro r
  induction r with
  | nil =>
    intro p c hc
    obtain ⟨t1, s1⟩ := p
    simp [SingleBuilder.buildChapters] at hc
    rw [← hc]
  | cons q t ih =>
    intro p c hc
    obtain ⟨t1, s1⟩ := p
    obtain ⟨t2, s2⟩ := q
    rw [SingleBuilder.buildChapters] at hc
    obtain ⟨c0, cs, hc0, -⟩ := buildChapters_head (t2, s2) t dur
    rw [hc0, List.getLast?_cons_cons, ← hc0] at hc
    exact ih (t2, s2) c hc

lemma buildChapters_mono (dur : ℚ) :
    ∀ tts : List (ℤ × String),
    List.Chain' (fun a b => a.1 < b.1) tts →
    (∀ p ∈ tts, 0 ≤ p.1) →
    (∀ p, tts.getLast? = some p → (p.1 : ℚ) < dur) →
    List.Chain' (fun a b => a.start_seconds < b.start_seconds)
      (SingleBuilder.buildChapters tts dur) ∧
    ∀ c ∈ SingleBuilder.buildChapters tts dur,
      0 ≤ c.start_seconds ∧ c.start_seconds < c.end_seconds := by
  intro tts
  induction tts with
  | nil =>
    intro _ _ _
    simp [SingleBuilder.buildChapters]
  | cons p r ih =>
    intro hchain hpos hlast
    obtain ⟨t1, s1⟩ := p
    cases r with
    | nil =>
      refine ⟨List.chain'_singleton _, ?_⟩
      intro c hcmem
      simp [SingleBuilder.buildChapters] at hcmem
      subst hcmem
      refine ⟨?_, ?_⟩
      · show (0 : ℚ) ≤ (t1 : ℚ)
        exact_mod_cast hpos (t1, s1) (by simp)
      · exact hlast (t1, s1) rfl
    | cons q t =>
      obtain ⟨t2, s2⟩ := q
      have hchain' : List.Chain' (fun a b => a.1 < b.1) ((t2, s2) :: t) :=
        (List.chain'_cons.mp hchain).2
      have h12 : t1 < t2 := (List.chain'_cons.mp hchain).1
      have hpos' : ∀ x ∈ (t2, s2) :: t, 0 ≤ x.1 := by
        intro x hx
        exact hpos x (List.mem_cons_of_mem _ hx)
      have hlast' : ∀ x, ((t2, s2) :: t).getLast? = some x → (x.1 : ℚ) < dur := by
        intro x hx
        exact hlast x (by rw [List.getLast?_cons_cons]; exact hx)
      obtain ⟨ihchain, ihmem⟩ := ih hchain' hpos' hlast'
      rw [SingleBuilder.buildChapters]
      obtain ⟨c0, cs, hc0, hstart⟩ := buildChapters_head (t2, s2) t dur
      constructor
      · rw [hc0]
        refine List.chain'_cons.mpr ⟨?_, ?_⟩
        · show (t1 : ℚ) < c0.start_seconds
          rw [hstart]
          exact_mod_cast h12
        · rw [← hc0]
          exact ihchain
      · intro c hcmem
        rcases List.mem_cons.mp hcmem with rfl | hcmem
        · refine ⟨?_, ?_⟩
          · show (0 : ℚ) ≤ (t1 : ℚ)
            exact_mod_cast hpos (t1, s1) (by simp)
          · show (t1 : ℚ) < (t2 : ℚ)
            exact_mod_cast h12
        · exact ihmem c hcmem

lemma dirChapAux_props (file_keywords : List String) :
    ∀ (ds : List ℚ) (ct : ℚ) (idx : ℕ) (chs : List Chapter),
    DirectoryBuilder.dirChapAux ct idx file_keywords ds = Except.ok chs →
    (∀ c, chs.head? = some c → c.start_seconds = ct) ∧
    List.Chain' (fun a b => a.end_seconds = b.start_seconds) chs ∧
    (∀ c, chs.getLast? = some c → c.end_seconds = ct + ds.sum) ∧
    (chs = [] → ds = []) := by
  intro ds
  induction ds with
  | nil =>
    intro ct idx chs h
    have hchs : chs = [] := by
      rw [DirectoryBuilder.dirChapAux] at h
      exact (Except.ok.inj h).symm
    subst hchs
    refine ⟨by simp, List.chain'_nil, by simp, fun _ => rfl⟩
  | cons d rest ih =>
    intro ct idx chs h
    rw [DirectoryBuilder.dirChapAux] at h
    cases hk : file_keywords.get? idx with
    | none => rw [hk] at h; exact absurd h (by simp)
    | some k =>
      rw [hk] at h
      cases ht : DirectoryBuilder.dirChapAux (ct + d) (idx + 1) file_keywords rest with
      | error e => rw [ht] at h; exact absurd h (by simp)
      | ok tail =>
        rw [ht] at h
        have hchs : chs =
            ⟨ct, ct + d, fmt02 (idx + 1) ++ ". " ++ k⟩ :: tail := (Except.ok.inj h).symm
        obtain ⟨ihhead, ihchain, ihlast, ihnil⟩ := ih (ct + d) (idx + 1) tail ht
        subst hchs
        refine ⟨?_, ?_, ?_, by simp⟩
        · intro c hc
          simp only [List.head?_cons, Option.some.injEq] at hc
          rw [← hc]
        · cases htail : tail with
          | nil => exact List.chain'_singleton _
          | cons c0 cs =>
            refine List.chain'_cons.mpr ⟨?_, by rw [← htail]; exact ihchain⟩
            have := ihhead c0 (by rw [htail]; rfl)
            show (ct + d) = c0.start_seconds
            rw [this]
        · intro c hc
          cases htail : tail with
          | nil =>
            subst htail
            simp only [List.getLast?_singleton, Option.some.injEq] at hc
            rw [← hc]
            show ct + d = ct + ([d] ++ rest).sum
            have : rest = [] := ihnil rfl
            subst this
            simp
          | cons c0 cs =>
            rw [htail, List.getLast?_cons_cons, ← htail] at hc
            have := ihlast c hc
            rw [this, List.sum_cons]
            ring

lemma dirChapAux_mono (file_keywords : List String) :
    ∀ (ds : List ℚ) (ct : ℚ) (idx : ℕ) (chs : List Chapter),
    DirectoryBuilder.dirChapAux ct idx file_keywords ds = Except.ok chs →
    (∀ d ∈ ds, 0 < d) → 0 ≤ ct →
    List.Chain' (fun a b => a.start_seconds < b.start_seconds) chs ∧
    ∀ c ∈ chs, 0 ≤ c.start_seconds ∧ c.start_seconds < c.end_seconds := by
  intro ds
  induction ds with
  | nil =>
    intro ct idx chs h _ _
    have hchs : chs = [] := by
      rw [DirectoryBuilder.dirChapAux] at h
      exact (Except.ok.inj h).symm
    subst hchs
    exact ⟨List.chain'_nil, by simp⟩
  | cons d rest ih =>
    intro ct idx chs h hpos hct
    rw [DirectoryBuilder.dirChapAux] at h
    cases hk : file_keywords.get? idx with
    | none => rw [hk] at h; exact absurd h (by simp)
    | some k =>
      rw [hk] at h
      cases ht : DirectoryBuilder.dirChapAux (ct + d) (idx + 1) file_keywords rest with
      | error e => rw [ht] at h; exact absurd h (by simp)
      | ok tail =>
        rw [ht] at h
        have hchs : chs =
            ⟨ct, ct + d, fmt02 (idx + 1) ++ ". " ++ k⟩ :: tail := (Except.ok.inj h).symm
        have hd : 0 < d := hpos d (by simp)
        obtain ⟨ihchain, ihmem⟩ := ih (ct + d) (idx + 1) tail ht
          (fun x hx => hpos x (by simp [hx])) (by linarith)
        obtain ⟨ihhead, -, -, -⟩ := dirChapAux_props file_keywords rest (ct + d) (idx + 1) tail ht
        subst hchs
        constructor
        · cases htail : tail with
          | nil => exact List.chain'_singleton _
          | cons c0 cs =>
            refine List.chain'_cons.mpr ⟨?_, by rw [← htail]; exact ihchain⟩
            have := ihhead c0 (by rw [htail]; rfl)
            show ct < c0.start_seconds
            rw [this]
            linarith
        · intro c hcmem
          rcases List.mem_cons.mp hcmem with rfl | hcmem
          · exact ⟨hct, by show ct < ct + d; linarith⟩
          · exact ihmem c hcmem
/-- C1: the matcher of the directory builder returns exactly the listing entries whose
    names contain a keyword, grouped keyword by keyword in keyword-list order (a file
    appears once per matching keyword, at the position of that keyword), and every
    match of an earlier keyword precedes every match of a later keyword; all of this
    holds for every listing order, since the statement quantifies over all listings. -/
theorem match_files_keyword_order :
    ∀ (directory : String) (listing : List String) (file_keywords : List String),
    DirectoryBuilder.match_files directory listing file_keywords =
      (file_keywords.map (fun keyword =>
        (listing.filter (fun file => pyInStr keyword file)).map
          (fun file => pathJoin directory file))).flatten ∧
    (∀ p, p ∈ DirectoryBuilder.match_files directory listing file_keywords ↔
      ∃ file, file ∈ listing ∧ (∃ keyword, keyword ∈ file_keywords ∧
        pyInStr keyword file = true) ∧ p = pathJoin directory file) ∧
    (∀ n, DirectoryBuilder.match_files directory listing file_keywords =
      DirectoryBuilder.match_files directory listing (file_keywords.take n) ++
      DirectoryBuilder.match_files directory listing (file_keywords.drop n)) := by
  intro d names ks
  refine ⟨rfl, ?_, ?_⟩
  · intro p
    simp only [DirectoryBuilder.match_files, List.mem_flatMap, List.mem_map,
      List.mem_filter]
    constructor
    · rintro ⟨k, hk, f, ⟨hf, hsub⟩, rfl⟩
      exact ⟨f, hf, ⟨k, hk, hsub⟩, rfl⟩
    · rintro ⟨f, hf, ⟨k, hk, hsub⟩, rfl⟩
      exact ⟨k, hk, f, ⟨hf, hsub⟩, rfl⟩
  · intro n
    conv_lhs => rw [← List.take_append_drop n ks]
    exact List.flatMap_append _ _ _

/-- C10 counterexample: with directory listing [b, a] (both plain files) and keyword
    list [a, b], the legacy matcher returns the files in filesystem order while the
    current matcher returns them in keyword order, so the two ordered results differ. -/
theorem matcher_generation_cex :
    MediaCat.match_files "/d" [⟨"b", true⟩, ⟨"a", true⟩] ["a", "b"] = ["/d/b", "/d/a"] ∧
    DirectoryBuilder.match_files "/d" ["b", "a"] ["a", "b"] = ["/d/a", "/d/b"] ∧
    (["/d/b", "/d/a"] : List String) ≠ ["/d/a", "/d/b"] := by
  refine ⟨rfl, rfl, by decide⟩

/-- C10 amended: when every listing entry is a regular file, the legacy and current
    matchers select the same set of joined paths; the ordered lists themselves differ
    in general (legacy is filesystem-ordered with each file listed once, current is
    keyword-ordered with one occurrence per matching keyword). -/
theorem matcher_same_set :
    ∀ (directory : String) (listing : List DirEntry) (file_keywords : List String),
    (∀ e ∈ listing, e.isFile = true) →
    ∀ p, p ∈ MediaCat.match_files directory listing file_keywords ↔
      p ∈ DirectoryBuilder.match_files directory (listing.map DirEntry.name)
        file_keywords := by
  intro d listing ks hfile p
  simp only [MediaCat.match_files, DirectoryBuilder.match_files, List.mem_map,
    List.mem_filter, List.mem_flatMap, List.any_eq_true, Bool.and_eq_true]
  constructor
  · rintro ⟨e, ⟨he, _, k, hk, hsub⟩, rfl⟩
    exact ⟨k, hk, e.name, ⟨⟨e, he, rfl⟩, hsub⟩, rfl⟩
  · rintro ⟨k, hk, f, ⟨⟨e, he, rfl⟩, hsub⟩, rfl⟩
    exact ⟨e, ⟨he, hfile e he, k, hk, hsub⟩, rfl⟩

/-- Witness for the amended C10 theorem at a concrete one-file listing. -/
theorem matcher_same_set_witness :
    "/d/x1" ∈ MediaCat.match_files "/d" [⟨"x1", true⟩] ["x"] ↔
    "/d/x1" ∈ DirectoryBuilder.match_files "/d"
      ([(⟨"x1", true⟩ : DirEntry)].map DirEntry.name) ["x"] :=
  matcher_same_set "/d" [⟨"x1", true⟩] ["x"] (by decide) "/d/x1"


lemma parseChapterLine_cases (idx : ℕ) (l : String) :
    (parseOK l = true → ∃ v, SingleBuilder.parseChapterLine idx l = Except.ok v) ∧
    (parseOK l = false → ∃ m, SingleBuilder.parseChapterLine idx l = Except.error m) := by
  unfold parseOK SingleBuilder.parseChapterLine
  rcases h : pySplit1 (pyStrip l) with _ | ⟨a, _ | ⟨b, _ | ⟨c, t⟩⟩⟩ <;>
    simp only [h]
  · exact ⟨fun hx => absurd hx (by simp), fun _ => ⟨_, rfl⟩⟩
  · exact ⟨fun hx => absurd hx (by simp), fun _ => ⟨_, rfl⟩⟩
  · cases hu : SingleBuilder.unpackHMS (pySplitColon a) with
    | error e =>
      simp only [hu]
      exact ⟨fun hx => absurd hx (by simp), fun _ => ⟨_, rfl⟩⟩
    | ok v =>
      obtain ⟨hh, mm, ss⟩ := v
      simp only [hu]
      exact ⟨fun _ => ⟨_, rfl⟩, fun hx => absurd hx (by simp)⟩
  · exact ⟨fun hx => absurd hx (by simp), fun _ => ⟨_, rfl⟩⟩

lemma parseLines_error_of_bad :
    ∀ (ls : List String) (idx : ℕ) (l : String), l ∈ ls → parseOK l = false →
    ∃ m, SingleBuilder.parseChapterLines idx ls = Except.error m := by
  intro ls
  induction ls with
  | nil => intro idx l h; cases h
  | cons hd tl ih =>
    intro idx l hmem hbad
    rcases List.mem_cons.mp hmem with rfl | hmem
    · obtain ⟨m, hm⟩ := (parseChapterLine_cases idx l).2 hbad
      exact ⟨m, by rw [SingleBuilder.parseChapterLines, hm]⟩
    · cases hh : SingleBuilder.parseChapterLine idx hd with
      | error e => exact ⟨e, by rw [SingleBuilder.parseChapterLines, hh]⟩
      | ok v =>
        obtain ⟨m, hm⟩ := ih (idx + 1) l hmem hbad
        exact ⟨m, by rw [SingleBuilder.parseChapterLines, hh, hm]⟩

lemma parseLine_invalid_format (idx : ℕ) (l : String)
    (hlen : (pySplit1 (pyStrip l)).length ≠ 2) :
    SingleBuilder.parseChapterLine idx l =
      Except.error ("Invalid chapter format: " ++ pyStrip l) := by
  unfold SingleBuilder.parseChapterLine
  rcases h : pySplit1 (pyStrip l) with _ | ⟨a, _ | ⟨b, _ | ⟨c, t⟩⟩⟩ <;>
    simp only [h] <;> try rfl
  exact absurd (by rw [h]; rfl) hlen

lemma parseLines_invalid_format :
    ∀ (pre : List String) (idx : ℕ) (l : String) (post : List String),
    (∀ x ∈ pre, parseOK x = true) → (pySplit1 (pyStrip l)).length ≠ 2 →
    SingleBuilder.parseChapterLines idx (pre ++ l :: post) =
      Except.error ("Invalid chapter format: " ++ pyStrip l) := by
  intro pre
  induction pre with
  | nil =>
    intro idx l post _ hlen
    rw [List.nil_append, SingleBuilder.parseChapterLines,
      parseLine_invalid_format idx l hlen]
  | cons hd tl ih =>
    intro idx l post hpre hlen
    obtain ⟨v, hv⟩ := (parseChapterLine_cases idx hd).1 (hpre hd (by simp))
    rw [List.cons_append, SingleBuilder.parseChapterLines, hv,
      ih (idx + 1) l post (fun x hx => hpre x (by simp [hx])) hlen]

lemma renderBlocks_shape (dur : ℚ) :
    ∀ (tts : List (ℤ × String)) (l : String),
    l ∈ SingleBuilder.renderBlocks tts dur →
    l = "[CHAPTER]" ∨ l = "TIMEBASE=1/1000" ∨
    (∃ n : ℤ, l = "START=" ++ toString n) ∨
    (∃ n : ℤ, l = "END=" ++ toString n) ∨
    l = "END=" ++ pyFloatStr (dur * 1000) ∨
    (∃ t, l = "title=" ++ t) := by
  intro tts
  induction tts with
  | nil => intro l h; simp [SingleBuilder.renderBlocks] at h
  | cons p r ih =>
    obtain ⟨t1, s1⟩ := p
    cases r with
    | nil =>
      intro l h
      simp only [SingleBuilder.renderBlocks, List.mem_cons, List.not_mem_nil,
        or_false] at h
      rcases h with rfl | rfl | rfl | rfl | rfl
      · exact Or.inl rfl
      · exact Or.inr (Or.inl rfl)
      · exact Or.inr (Or.inr (Or.inl ⟨t1 * 1000, rfl⟩))
      · exact Or.inr (Or.inr (Or.inr (Or.inr (Or.inl rfl))))
      · exact Or.inr (Or.inr (Or.inr (Or.inr (Or.inr ⟨s1, rfl⟩))))
    | cons q t =>
      obtain ⟨t2, s2⟩ := q
      intro l h
      rw [SingleBuilder.renderBlocks] at h
      rcases List.mem_append.mp h with h5 | hrest
      · simp only [List.mem_cons, List.not_mem_nil, or_false] at h5
        rcases h5 with rfl | rfl | rfl | rfl | rfl
        · exact Or.inl rfl
        · exact Or.inr (Or.inl rfl)
        · exact Or.inr (Or.inr (Or.inl ⟨t1 * 1000, rfl⟩))
        · exact Or.inr (Or.inr (Or.inr (Or.inl ⟨t2 * 1000, rfl⟩)))
        · exact Or.inr (Or.inr (Or.inr (Or.inr (Or.inr ⟨s1, rfl⟩))))
      · exact ih l hrest

lemma dirRenderAux_shape (file_keywords : List String) :
    ∀ (ds : List ℚ) (ct : ℚ) (idx : ℕ) (ls : List String),
    DirectoryBuilder.dirRenderAux ct idx file_keywords ds = Except.ok ls →
    ∀ l ∈ ls,
    l = "[CHAPTER]" ∨ l = "TIMEBASE=1/1000" ∨
    (∃ n : ℤ, l = "START=" ++ toString n) ∨
    (∃ n : ℤ, l = "END=" ++ toString n) ∨
    (∃ t, l = "title=" ++ t) := by
  intro ds
  induction ds with
  | nil =>
    intro ct idx ls h
    have hls : ls = [] := by
      rw [DirectoryBuilder.dirRenderAux] at h
      exact (Except.ok.inj h).symm
    subst hls
    simp
  | cons d rest ih =>
    intro ct idx ls h
    rw [DirectoryBuilder.dirRenderAux] at h
    cases hk : file_keywords.get? idx with
    | none => rw [hk] at h; exact absurd h (by simp)
    | some k =>
      rw [hk] at h
      cases ht : DirectoryBuilder.dirRenderAux (ct + d) (idx + 1) file_keywords rest with
      | error e => rw [ht] at h; exact absurd h (by simp)
      | ok tail =>
        rw [ht] at h
        have hls : ls = ["[CHAPTER]", "TIMEBASE=1/1000",
            "START=" ++ toString (pyIntTrunc (ct * 1000)),
            "END=" ++ toString (pyIntTrunc ((ct + d) * 1000)),
            "title=" ++ fmt02 (idx + 1) ++ ". " ++ k] ++ tail := (Except.ok.inj h).symm
        subst hls
        intro l hl
        rcases List.mem_append.mp hl with h5 | hrest
        · simp only [List.mem_cons, List.not_mem_nil, or_false] at h5
          rcases h5 with rfl | rfl | rfl | rfl | rfl
          · exact Or.inl rfl
          · exact Or.inr (Or.inl rfl)
          · exact Or.inr (Or.inr (Or.inl ⟨_, rfl⟩))
          · exact Or.inr (Or.inr (Or.inr (Or.inl ⟨_, rfl⟩)))
          · exact Or.inr (Or.inr (Or.inr (Or.inr ⟨fmt02 (idx + 1) ++ ". " ++ k, by
              simp [String.append_assoc]⟩)))
        · exact ih (ct + d) (idx + 1) tail ht l hrest

/-- C2: chapter sequences of both strategies are contiguous.  For the directory
    variant (durations are the probe oracle results for the converted tracks, in
    order) the end of each chapter equals the start of the next exactly, and the last
    end equals the sum of all track durations, i.e. the total audio duration.  For the
    single-file variant the chapters are contiguous by construction and the last end
    is the probed total duration truncated to whole milliseconds, which is within
    1/1000 of the probed duration. -/
theorem chapters_contiguous :
    (∀ durations file_keywords chs,
      DirectoryBuilder.chapterList durations file_keywords = Except.ok chs →
      List.Chain' (fun a b => a.end_seconds = b.start_seconds) chs ∧
      ∀ c, chs.getLast? = some c → c.end_seconds = durations.sum) ∧
    (∀ lines probe chs,
      SingleBuilder.chapterList lines probe = Except.ok chs →
      List.Chain' (fun a b => a.end_seconds = b.start_seconds) chs ∧
      (∀ c, chs.getLast? = some c → c.end_seconds = truncMs probe) ∧
      (0 ≤ probe → truncMs probe ≤ probe ∧ probe - 1 / 1000 < truncMs probe)) := by
  constructor
  · intro ds ks chs h
    obtain ⟨-, hchain, hlast, -⟩ := dirChapAux_props ks ds 0 0 chs h
    refine ⟨hchain, ?_⟩
    intro c hc
    have := hlast c hc
    rwa [zero_add] at this
  · intro lines probe chs h
    unfold SingleBuilder.chapterList at h
    cases hp : SingleBuilder.parseChapterLines 0 lines with
    | error e => rw [hp] at h; exact absurd h (by simp)
    | ok tts =>
      rw [hp] at h
      have hchs : chs = SingleBuilder.buildChapters tts (truncMs probe) :=
        (Except.ok.inj h).symm
      subst hchs
      refine ⟨buildChapters_contig _ tts, ?_, fun hpos => truncMs_bounds probe hpos⟩
      intro c hc
      cases tts with
      | nil => simp [SingleBuilder.buildChapters] at hc
      | cons p r => exact buildChapters_last _ r p c hc

/-- Witness for C2 at a one-track directory build and a one-line chapter file. -/
theorem chapters_contiguous_witness :
    (List.Chain' (fun a b => a.end_seconds = b.start_seconds)
      [(⟨0, 0 + 1, fmt02 (0 + 1) ++ ". " ++ "a"⟩ : Chapter)] ∧
     ∀ c, ([(⟨0, 0 + 1, fmt02 (0 + 1) ++ ". " ++ "a"⟩ : Chapter)]).getLast? = some c →
       c.end_seconds = ([1] : List ℚ).sum) ∧
    (List.Chain' (fun a b => a.end_seconds = b.start_seconds)
      (SingleBuilder.buildChapters [(0, "01. A")] (truncMs 200)) ∧
     (∀ c, (SingleBuilder.buildChapters [(0, "01. A")] (truncMs 200)).getLast? =
        some c → c.end_seconds = truncMs 200) ∧
     ((0 : ℚ) ≤ 200 → truncMs 200 ≤ 200 ∧ (200 : ℚ) - 1 / 1000 < truncMs 200)) := by
  constructor
  · exact chapters_contiguous.1 [1] ["a"] _ rfl
  · exact chapters_contiguous.2 ["00:00:00 A"] 200 _ rfl

/-- C7: parsing the two-line chapter file 00:00:00 Intro / 00:01:30 Chapter One
    against a probed duration of 200 seconds yields exactly the chapters
    (0, 90, 01. Intro) and (90, 200, 02. Chapter One): timestamps convert as
    h*3600 + m*60 + s and the last end is the probed duration. -/
theorem chapter_file_round_trip :
    SingleBuilder.chapterList ["00:00:00 Intro", "00:01:30 Chapter One"] 200 =
      Except.ok [⟨0, 90, "01. Intro"⟩, ⟨90, 200, "02. Chapter One"⟩] := by
  have hp : SingleBuilder.parseChapterLines 0 ["00:00:00 Intro", "00:01:30 Chapter One"] =
      Except.ok [(0, "01. Intro"), (90, "02. Chapter One")] := rfl
  simp only [SingleBuilder.chapterList, hp, SingleBuilder.buildChapters, truncMs_200]
  norm_num

/-- C5 counterexample: for the one-line chapter file 00:00:00 Intro and a probed
    duration of 200 seconds, the single-file builder writes END=200000.0 for its last
    chapter — the Python float repr of duration * 1000 — which differs from the
    integer rendering END=200000 that the claim requires for every END value. -/
theorem single_last_end_float_cex :
    SingleBuilder.chapters ["00:00:00 Intro"] 200 =
      Except.ok [";FFMETADATA1", "[CHAPTER]", "TIMEBASE=1/1000", "START=0",
        "END=200000.0", "title=01. Intro"] ∧
    ("END=200000.0" : String) ≠ "END=" ++ toString (200000 : ℤ) := by
  constructor
  · have hp : SingleBuilder.parseChapterLines 0 ["00:00:00 Intro"] =
        Except.ok [(0, "01. Intro")] := rfl
    have hf : pyFloatStr (truncMs 200 * 1000) = "200000.0" := by
      rw [truncMs_200]
      have h : ((200 : ℚ) * 1000) = (((200000 : ℤ) : ℚ)) := by norm_num
      rw [h, pyFloatStr_intCast]
      decide
    simp only [SingleBuilder.chapters, hp, SingleBuilder.renderBlocks, hf,
      Except.ok.injEq]
    decide
  · decide

/-- C5 amended: every line of a chapter-metadata artifact is the header, a block
    marker, the timebase, an integer-rendered START, an integer-rendered END, or a
    title line — except that in the single-file variant an END line may instead be
    the float rendering of the truncated probed duration times 1000 (the last
    chapter); the counterexample shows that final END is rendered as a float, not an
    integer. -/
theorem chapters_render_format :
    (∀ durations file_keywords ls,
      DirectoryBuilder.chapters durations file_keywords = Except.ok ls →
      ls.head? = some ";FFMETADATA1" ∧
      ∀ l ∈ ls.tail, l = "[CHAPTER]" ∨ l = "TIMEBASE=1/1000" ∨
        (∃ n : ℤ, l = "START=" ++ toString n) ∨
        (∃ n : ℤ, l = "END=" ++ toString n) ∨ (∃ t, l = "title=" ++ t)) ∧
    (∀ lines probe ls,
      SingleBuilder.chapters lines probe = Except.ok ls →
      ls.head? = some ";FFMETADATA1" ∧
      ∀ l ∈ ls.tail, l = "[CHAPTER]" ∨ l = "TIMEBASE=1/1000" ∨
        (∃ n : ℤ, l = "START=" ++ toString n) ∨
        (∃ n : ℤ, l = "END=" ++ toString n) ∨
        l = "END=" ++ pyFloatStr (truncMs probe * 1000) ∨
        (∃ t, l = "title=" ++ t)) := by
  constructor
  · intro ds ks ls h
    unfold DirectoryBuilder.chapters at h
    cases hr : DirectoryBuilder.dirRenderAux 0 0 ks ds with
    | error e => rw [hr] at h; exact absurd h (by simp)
    | ok tail =>
      rw [hr] at h
      have hls : ls = ";FFMETADATA1" :: tail := (Except.ok.inj h).symm
      subst hls
      exact ⟨rfl, fun l hl => dirRenderAux_shape ks ds 0 0 tail hr l hl⟩
  · intro lines probe ls h
    unfold SingleBuilder.chapters at h
    cases hp : SingleBuilder.parseChapterLines 0 lines with
    | error e => rw [hp] at h; exact absurd h (by simp)
    | ok tts =>
      rw [hp] at h
      have hls : ls = ";FFMETADATA1" :: SingleBuilder.renderBlocks tts (truncMs probe) :=
        (Except.ok.inj h).symm
      subst hls
      exact ⟨rfl, fun l hl => renderBlocks_shape (truncMs probe) tts l hl⟩

/-- Witness for the amended C5 theorem at concrete one-chapter builds. -/
theorem chapters_render_format_witness :
    (([";FFMETADATA1", "[CHAPTER]", "TIMEBASE=1/1000", "START=0", "END=1000",
        "title=01. a"] : List String).head? = some ";FFMETADATA1" ∧
     ∀ l ∈ ([";FFMETADATA1", "[CHAPTER]", "TIMEBASE=1/1000", "START=0", "END=1000",
        "title=01. a"] : List String).tail,
       l = "[CHAPTER]" ∨ l = "TIMEBASE=1/1000" ∨
       (∃ n : ℤ, l = "START=" ++ toString n) ∨
       (∃ n : ℤ, l = "END=" ++ toString n) ∨ (∃ t, l = "title=" ++ t)) ∧
    (([";FFMETADATA1", "[CHAPTER]", "TIMEBASE=1/1000", "START=0", "END=200000.0",
        "title=01. Intro"] : List String).head? = some ";FFMETADATA1" ∧
     ∀ l ∈ ([";FFMETADATA1", "[CHAPTER]", "TIMEBASE=1/1000", "START=0", "END=200000.0",
        "title=01. Intro"] : List String).tail,
       l = "[CHAPTER]" ∨ l = "TIMEBASE=1/1000" ∨
       (∃ n : ℤ, l = "START=" ++ toString n) ∨
       (∃ n : ℤ, l = "END=" ++ toString n) ∨
       l = "END=" ++ pyFloatStr (truncMs 200 * 1000) ∨ (∃ t, l = "title=" ++ t)) := by
  constructor
  · refine chapters_render_format.1 [1] ["a"] _ ?_
    have h0 : pyIntTrunc ((0 : ℚ) * 1000) = 0 := by
      have h : ((0 : ℚ) * 1000) = (((0 : ℤ) : ℚ)) := by norm_num
      rw [h, pyIntTrunc_intCast]
    have h1 : pyIntTrunc (((0 : ℚ) + 1) * 1000) = 1000 := by
      have h : (((0 : ℚ) + 1) * 1000) = (((1000 : ℤ) : ℚ)) := by norm_num
      rw [h, pyIntTrunc_intCast]
    simp only [DirectoryBuilder.chapters, DirectoryBuilder.dirRenderAux, List.get?,
      h0, h1, Except.ok.injEq]
    decide
  · refine chapters_render_format.2 ["00:00:00 Intro"] 200 _ ?_
    have hp : SingleBuilder.parseChapterLines 0 ["00:00:00 Intro"] =
        Except.ok [(0, "01. Intro")] := rfl
    have hf : pyFloatStr (truncMs 200 * 1000) = "200000.0" := by
      rw [truncMs_200]
      have h : ((200 : ℚ) * 1000) = (((200000 : ℤ) : ℚ)) := by norm_num
      rw [h, pyFloatStr_intCast]
      decide
    simp only [SingleBuilder.chapters, hp, SingleBuilder.renderBlocks, hf,
      Except.ok.injEq]
    decide

/-- C6 counterexample: the line (bad line no time) does split into two
    space-separated fields (bad / line no time), so it passes the invalid-format
    check; the failure instead comes from int() on the field bad, whose ValueError
    message names only that field — it is not the InvalidChapterFormat error and does
    not contain the offending line. -/
theorem malformed_line_error_cex :
    SingleBuilder.parseChapterLines 0 ["bad line no time"] =
      Except.error (SingleBuilder.intLiteralErr "bad") ∧
    SingleBuilder.intLiteralErr "bad" ≠
      "Invalid chapter format: bad line no time" ∧
    pyInStr "bad line no time" (SingleBuilder.intLiteralErr "bad") = false := by
  refine ⟨rfl, by decide, by decide⟩

/-- C6 amended: no malformed chapter line is silently skipped — any line that fails
    to parse makes the whole parse raise — and a line that does not split into two
    space-separated fields raises the invalid-chapter-format ValueError naming that
    line; a line whose first field is not HH:MM:SS (such as bad line no time) raises
    a different ValueError from the int conversion or tuple unpacking instead. -/
theorem chapter_parse_error_policy :
    (∀ idx ls l, l ∈ ls → parseOK l = false →
      ∃ m, SingleBuilder.parseChapterLines idx ls = Except.error m) ∧
    (∀ idx pre l post, (∀ x ∈ pre, parseOK x = true) →
      (pySplit1 (pyStrip l)).length ≠ 2 →
      SingleBuilder.parseChapterLines idx (pre ++ l :: post) =
        Except.error ("Invalid chapter format: " ++ pyStrip l)) :=
  ⟨fun idx ls l h1 h2 => parseLines_error_of_bad ls idx l h1 h2,
   fun idx pre l post h1 h2 => parseLines_invalid_format pre idx l post h1 h2⟩

/-- Witness for the amended C6 theorem: a one-field line raises, and raises the
    invalid-chapter-format error naming it. -/
theorem chapter_parse_error_policy_witness :
    (∃ m, SingleBuilder.parseChapterLines 0 ["badline"] = Except.error m) ∧
    SingleBuilder.parseChapterLines 0
        (["00:00:00 ok"] ++ "badline" :: []) =
      Except.error ("Invalid chapter format: " ++ pyStrip "badline") := by
  constructor
  · exact chapter_parse_error_policy.1 0 ["badline"] "badline" (by decide) (by decide)
  · exact chapter_parse_error_policy.2 0 ["00:00:00 ok"] "badline" [] (by decide)
      (by decide)

/-- C8 counterexample: a well-formed chapter file whose timestamps are out of order
    (00:01:00 then 00:00:30) parses without error, and the resulting chapter starts
    (60 then 30) are not strictly increasing — the single-file strategy performs no
    ordering validation. -/
theorem single_not_increasing_cex :
    SingleBuilder.chapterList ["00:01:00 A", "00:00:30 B"] 200 =
      Except.ok [⟨60, 30, "01. A"⟩, ⟨30, 200, "02. B"⟩] ∧
    ¬ List.Chain' (fun a b => a.start_seconds < b.start_seconds)
      [(⟨60, 30, "01. A"⟩ : Chapter), ⟨30, 200, "02. B"⟩] := by
  constructor
  · have hp : SingleBuilder.parseChapterLines 0 ["00:01:00 A", "00:00:30 B"] =
        Except.ok [(60, "01. A"), (30, "02. B")] := rfl
    simp only [SingleBuilder.chapterList, hp, SingleBuilder.buildChapters, truncMs_200]
    norm_num
  · rw [List.chain'_cons]
    rintro ⟨h, -⟩
    norm_num at h

/-- C8 amended: chapter sequences are contiguous by construction in both variants;
    their starts are strictly increasing and their times non-negative provided the
    inputs are well-behaved — for the directory variant all track durations are
    positive, and for the single-file variant the parsed timestamps are non-negative,
    strictly increasing, and below the truncated probed duration.  The code does not
    enforce these conditions (see the counterexample). -/
theorem chapters_increasing_sorted :
    (∀ durations file_keywords chs,
      DirectoryBuilder.chapterList durations file_keywords = Except.ok chs →
      (∀ d ∈ durations, 0 < d) →
      List.Chain' (fun a b => a.start_seconds < b.start_seconds) chs ∧
      List.Chain' (fun a b => a.end_seconds = b.start_seconds) chs ∧
      ∀ c ∈ chs, 0 ≤ c.start_seconds ∧ c.start_seconds < c.end_seconds) ∧
    (∀ lines probe tts chs,
      SingleBuilder.parseChapterLines 0 lines = Except.ok tts →
      SingleBuilder.chapterList lines probe = Except.ok chs →
      List.Chain' (fun a b => a.1 < b.1) tts →
      (∀ p ∈ tts, 0 ≤ p.1) →
      (∀ p, tts.getLast? = some p → (p.1 : ℚ) < truncMs probe) →
      List.Chain' (fun a b => a.start_seconds < b.start_seconds) chs ∧
      List.Chain' (fun a b => a.end_seconds = b.start_seconds) chs ∧
      ∀ c ∈ chs, 0 ≤ c.start_seconds ∧ c.start_seconds < c.end_seconds) := by
  constructor
  · intro ds ks chs h hpos
    obtain ⟨hchain, hmem⟩ := dirChapAux_mono ks ds 0 0 chs h hpos le_rfl
    obtain ⟨-, hcontig, -, -⟩ := dirChapAux_props ks ds 0 0 chs h
    exact ⟨hchain, hcontig, hmem⟩
  · intro lines probe tts chs hp h hchain hpos hlast
    unfold SingleBuilder.chapterList at h
    rw [hp] at h
    have hchs : chs = SingleBuilder.buildChapters tts (truncMs probe) :=
      (Except.ok.inj h).symm
    subst hchs
    obtain ⟨hc, hm⟩ := buildChapters_mono (truncMs probe) tts hchain hpos hlast
    exact ⟨hc, buildChapters_contig _ tts, hm⟩

/-- Witness for the amended C8 theorem at a one-track directory build and a one-line
    chapter file. -/
theorem chapters_increasing_sorted_witness :
    (List.Chain' (fun a b => a.start_seconds < b.start_seconds)
      [(⟨0, 0 + 1, fmt02 (0 + 1) ++ ". " ++ "a"⟩ : Chapter)] ∧
     List.Chain' (fun a b => a.end_seconds = b.start_seconds)
      [(⟨0, 0 + 1, fmt02 (0 + 1) ++ ". " ++ "a"⟩ : Chapter)] ∧
     ∀ c ∈ [(⟨0, 0 + 1, fmt02 (0 + 1) ++ ". " ++ "a"⟩ : Chapter)],
       0 ≤ c.start_seconds ∧ c.start_seconds < c.end_seconds) ∧
    (List.Chain' (fun a b => a.start_seconds < b.start_seconds)
      (SingleBuilder.buildChapters [(0, "01. A")] (truncMs 200)) ∧
     List.Chain' (fun a b => a.end_seconds = b.start_seconds)
      (SingleBuilder.buildChapters [(0, "01. A")] (truncMs 200)) ∧
     ∀ c ∈ SingleBuilder.buildChapters [(0, "01. A")] (truncMs 200),
       0 ≤ c.start_seconds ∧ c.start_seconds < c.end_seconds) := by
  constructor
  · exact chapters_increasing_sorted.1 [1] ["a"] _ rfl (by
      intro d hd
      simp only [List.mem_singleton] at hd
      subst hd
      norm_num)
  · refine chapters_increasing_sorted.2 ["00:00:00 A"] 200 [(0, "01. A")] _ rfl rfl
      (List.chain'_singleton _) (by decide) ?_
    intro p hp
    simp only [List.getLast?_singleton, Option.some.injEq] at hp
    subst hp
    rw [truncMs_200]
    norm_num

/-- C3 counterexample: running build with cleanup suppressed on a filesystem that
    holds the scratch directory leaves the directory in place but reports nothing to
    the caller — the reported-lines component is empty and in particular does not
    contain the scratch path, contrary to the claim that the path is reported. -/
theorem build_no_report_cex :
    (AudioBookBuilder.build "/tmp/w" false okStep okStep okStep ["/tmp/w"]).2.1 =
      ["/tmp/w"] ∧
    (AudioBookBuilder.build "/tmp/w" false okStep okStep okStep ["/tmp/w"]).2.2 = [] ∧
    "/tmp/w" ∉ (AudioBookBuilder.build "/tmp/w" false okStep okStep okStep
      ["/tmp/w"]).2.2 := by
  refine ⟨rfl, rfl, ?_⟩
  intro h
  simp [AudioBookBuilder.build] at h

/-- C3 amended: with cleanup enabled, the scratch directory no longer exists when
    build returns or when its exception propagates, whatever the three phases do and
    whether they succeed or raise; with cleanup suppressed the filesystem is exactly
    the one the phases left (the directory is retained, nothing is deleted) but no
    report of the path is produced — the path-reporting described by the spec exists
    only in the legacy cat builder, not in this build. -/
theorem build_cleanup_guarantee :
    (∀ temp_dir st1 st2 st3 fs,
      temp_dir ∉ (AudioBookBuilder.build temp_dir true st1 st2 st3 fs).2.1) ∧
    (∀ temp_dir st1 st2 st3 fs,
      (AudioBookBuilder.build temp_dir false st1 st2 st3 fs).2.1 =
        (AudioBookBuilder.buildBody st1 st2 st3 fs).2 ∧
      (AudioBookBuilder.build temp_dir false st1 st2 st3 fs).2.2 = []) := by
  constructor
  · intro td s1 s2 s3 fs
    simp only [AudioBookBuilder.build, if_true]
    intro hmem
    unfold AudioBookBuilder.cleanupFs at hmem
    by_cases hc : ((AudioBookBuilder.buildBody s1 s2 s3 fs).2).contains td
    · rw [if_pos hc] at hmem
      unfold rmtreeFs at hmem
      rcases List.mem_filter.mp hmem with ⟨-, hp⟩
      unfold underDir at hp
      simp at hp
    · rw [if_neg hc] at hmem
      simp at hc
      exact hc hmem
  · intro td s1 s2 s3 fs
    exact ⟨rfl, rfl⟩

/-- C4: the converted-files list of the directory builder collects the return value
    of _convert_to_m4a, which is always None, so for a build with one matched file
    the concat list holds the line (file None-quoted) instead of the path of the
    converted track 00.m4a that the spec prescribes; downstream, chapters() then
    probes None and the build crashes. -/
theorem converted_files_none_bug :
    DirectoryBuilder.inputs_lines
      (DirectoryBuilder.converted_files "/tmp/w" ["/d/01-intro.mp3"]) =
      ["file " ++ apos ++ "None" ++ apos] ∧
    ("file " ++ apos ++ "None" ++ apos : String) ≠
      "file " ++ apos ++ DirectoryBuilder.converted_name "/tmp/w" 0 ++ apos ∧
    DirectoryBuilder.converted_name "/tmp/w" 0 = "/tmp/w/00.m4a" := by
  refine ⟨rfl, by decide, by decide⟩

/-- C9: when re-encoding is off and the input name carries the .m4a extension (the
    code checks case-insensitively), the transcoder takes the copy branch and the
    output bytes equal the input bytes without invoking the encoder; in every other
    case (re-encoding forced, or another extension) it takes the encode branch and
    the output is the encoder result. -/
theorem convert_fast_path :
    ∀ (re_encode : Bool) (input_file : String) (data : List ℕ)
      (encoder : List ℕ → List ℕ),
    (re_encode = false → pyEndsWith (pyLower input_file) ".m4a" = true →
      AudioBookBuilder.convertAction re_encode input_file = ConvertAction.copyFile ∧
      AudioBookBuilder.convertOutput re_encode input_file data encoder = data) ∧
    ((re_encode = true ∨ pyEndsWith (pyLower input_file) ".m4a" = false) →
      AudioBookBuilder.convertAction re_encode input_file = ConvertAction.encodeFile ∧
      AudioBookBuilder.convertOutput re_encode input_file data encoder =
        encoder data) := by
  intro re input data enc
  constructor
  · rintro rfl hend
    constructor
    · simp [AudioBookBuilder.convertAction, hend]
    · simp [AudioBookBuilder.convertOutput, AudioBookBuilder.convertAction, hend]
  · rintro (rfl | hend)
    · constructor
      · simp [AudioBookBuilder.convertAction]
      · simp [AudioBookBuilder.convertOutput, AudioBookBuilder.convertAction]
    · constructor
      · simp [AudioBookBuilder.convertAction, hend]
      · simp [AudioBookBuilder.convertOutput, AudioBookBuilder.convertAction, hend]

/-- Witness for C9: an uppercase .M4A input copies when re-encoding is off and
    encodes when it is forced. -/
theorem convert_fast_path_witness :
    (AudioBookBuilder.convertAction false "Book.M4A" = ConvertAction.copyFile ∧
     AudioBookBuilder.convertOutput false "Book.M4A" [7, 8] (fun _ => []) = [7, 8]) ∧
    (AudioBookBuilder.convertAction true "Book.M4A" = ConvertAction.encodeFile ∧
     AudioBookBuilder.convertOutput true "Book.M4A" [7, 8] (fun _ => []) = []) := by
  constructor
  · exact (convert_fast_path false "Book.M4A" [7, 8] (fun _ => [])).1 rfl (by decide)
  · exact (convert_fast_path true "Book.M4A" [7, 8] (fun _ => [])).2 (Or.inl rfl)
